import Mathlib

/-!
Shallow embedding of the caching/pooling layer of the `body-parser`
repository (files `lib/parse-cache.js`, `lib/buffer-pool.js`,
`lib/content-type-cache.js`), together with theorems settling the
specification claims about it.

Modelling conventions:
* A JavaScript `Map` is modelled as an insertion-ordered association list
  (`JsMap`): `Map.prototype.set` on a key already present overwrites the
  value in place (keeping the key's original position), otherwise appends;
  `Map.prototype.delete` removes the (unique) binding; iteration and
  `keys().next().value` follow insertion order.
* Request bodies are modelled as `String`s, `body.length` as `String.length`.
* The SHA-256 digest used for bodies of length ≥ 100 is modelled by the
  injective constructor `CacheKey.digest` (collision resistance of the
  hash is modelled as exact injectivity).
* `Date.now()` is modelled by an explicit `now : Nat` argument threaded
  through the time-dependent operations.
* Node `Buffer`s are modelled as `List Nat` (byte sequences);
  `Buffer.allocUnsafe` returns uninitialised memory, modelled by an
  arbitrary `junk : Nat → Nat` content oracle; `buffer.fill(0)` is
  `List.replicate buffer.length 0`; `buf.slice(0, size)` is
  `List.take size buf` (contents shared, hence equal).
* The floating-point `hitRate` field of the various `stats()` results is
  not modelled (no claim depends on it); the integer counters are.
-/

/-- Insertion-ordered association list modelling a JavaScript `Map`. -/
abbrev JsMap (K V : Type) := List (K × V)

/-- `Map.prototype.get`: first binding of the key, if any. -/
def JsMap.get {K V : Type} [DecidableEq K] : JsMap K V → K → Option V
  | [], _ => none
  | (k', v) :: rest, k => if k' = k then some v else JsMap.get rest k

/-- `Map.prototype.set`: overwrite in place if present, else append. -/
def JsMap.set {K V : Type} [DecidableEq K] : JsMap K V → K → V → JsMap K V
  | [], k, v => [(k, v)]
  | (k', v') :: rest, k, v =>
      if k' = k then (k', v) :: rest else (k', v') :: JsMap.set rest k v

/-- `Map.prototype.delete`: remove the first binding of the key. -/
def JsMap.delete {K V : Type} [DecidableEq K] : JsMap K V → K → JsMap K V
  | [], _ => []
  | (k', v') :: rest, k =>
      if k' = k then rest else (k', v') :: JsMap.delete rest k

/-- `Map.prototype.size`. -/
def JsMap.size {K V : Type} (m : JsMap K V) : Nat := m.length

/-- `map.keys().next().value`: the first key in insertion order. -/
def JsMap.firstKey {K V : Type} (m : JsMap K V) : Option K :=
  m.head?.map Prod.fst

/-! ### Basic `JsMap` lemmas -/

theorem JsMap.get_set_self {K V : Type} [DecidableEq K]
    (m : JsMap K V) (k : K) (v : V) : JsMap.get (JsMap.set m k v) k = some v := by
  induction m with
  | nil => simp [JsMap.set, JsMap.get]
  | cons hd tl ih =>
      obtain ⟨k', v'⟩ := hd
      by_cases h : k' = k
      · simp [JsMap.set, JsMap.get, h]
      · simp [JsMap.set, JsMap.get, h, ih]

theorem JsMap.get_set_ne {K V : Type} [DecidableEq K]
    (m : JsMap K V) (k k' : K) (v : V) (h : k' ≠ k) :
    JsMap.get (JsMap.set m k v) k' = JsMap.get m k' := by
  induction m with
  | nil =>
      simp only [JsMap.set, JsMap.get]
      rw [if_neg (Ne.symm h)]
  | cons hd tl ih =>
      obtain ⟨k₀, v₀⟩ := hd
      by_cases hk : k₀ = k
      · subst hk
        simp only [JsMap.set, if_pos rfl, JsMap.get]
        rw [if_neg (Ne.symm h), if_neg (Ne.symm h)]
      · simp only [JsMap.set, if_neg hk, JsMap.get]
        by_cases hk' : k₀ = k'
        · simp [hk']
        · simp [hk', ih]

theorem JsMap.get_delete_ne {K V : Type} [DecidableEq K]
    (m : JsMap K V) (k k' : K) (h : k' ≠ k) :
    JsMap.get (JsMap.delete m k) k' = JsMap.get m k' := by
  induction m with
  | nil => simp [JsMap.delete]
  | cons hd tl ih =>
      obtain ⟨k₀, v₀⟩ := hd
      by_cases hk : k₀ = k
      · subst hk
        simp only [JsMap.delete, eq_self_iff_true, if_true, JsMap.get]
        rw [if_neg (Ne.symm h)]
      · simp only [JsMap.delete, if_neg hk, JsMap.get]
        by_cases hk' : k₀ = k'
        · simp [hk']
        · simp [hk', ih]

theorem JsMap.size_set_le {K V : Type} [DecidableEq K]
    (m : JsMap K V) (k : K) (v : V) :
    JsMap.size (JsMap.set m k v) ≤ JsMap.size m + 1 := by
  induction m with
  | nil => simp [JsMap.set, JsMap.size]
  | cons hd tl ih =>
      obtain ⟨k', v'⟩ := hd
      by_cases h : k' = k
      · simp [JsMap.set, JsMap.size, h]
      · simpa [JsMap.set, JsMap.size, h] using ih

theorem JsMap.size_set_present {K V : Type} [DecidableEq K]
    (m : JsMap K V) (k : K) (v w : V) (h : JsMap.get m k = some w) :
    JsMap.size (JsMap.set m k v) = JsMap.size m := by
  induction m with
  | nil => simp [JsMap.get] at h
  | cons hd tl ih =>
      obtain ⟨k', v'⟩ := hd
      by_cases hk : k' = k
      · simp [JsMap.set, JsMap.size, hk]
      · simp only [JsMap.get, if_neg hk] at h
        simpa [JsMap.set, JsMap.size, hk] using ih h

theorem JsMap.size_delete_le {K V : Type} [DecidableEq K]
    (m : JsMap K V) (k : K) :
    JsMap.size (JsMap.delete m k) ≤ JsMap.size m := by
  induction m with
  | nil => simp [JsMap.delete]
  | cons hd tl ih =>
      obtain ⟨k', v'⟩ := hd
      by_cases h : k' = k
      · simp [JsMap.delete, JsMap.size, h]
      · simp only [JsMap.delete, if_neg h, JsMap.size, List.length_cons]
        exact Nat.succ_le_succ ih

theorem JsMap.size_delete_present {K V : Type} [DecidableEq K]
    (m : JsMap K V) (k : K) (w : V) (h : JsMap.get m k = some w) :
    JsMap.size (JsMap.delete m k) + 1 = JsMap.size m := by
  induction m with
  | nil => simp [JsMap.get] at h
  | cons hd tl ih =>
      obtain ⟨k', v'⟩ := hd
      by_cases hk : k' = k
      · simp [JsMap.delete, JsMap.size, hk]
      · simp only [JsMap.get, if_neg hk] at h
        simpa [JsMap.delete, JsMap.size, hk] using ih h

theorem JsMap.get_eq_none_of_not_mem {K V : Type} [DecidableEq K]
    (m : JsMap K V) (k : K) (h : k ∉ m.map Prod.fst) :
    JsMap.get m k = none := by
  induction m with
  | nil => simp [JsMap.get]
  | cons hd tl ih =>
      obtain ⟨k', v'⟩ := hd
      simp only [List.map_cons, List.mem_cons, not_or] at h
      simp only [JsMap.get]
      rw [if_neg (fun e => h.1 e.symm)]
      exact ih h.2

theorem JsMap.get_delete_self_nodup {K V : Type} [DecidableEq K]
    (m : JsMap K V) (k : K) (hnd : (m.map Prod.fst).Nodup) :
    JsMap.get (JsMap.delete m k) k = none := by
  induction m with
  | nil => simp [JsMap.delete, JsMap.get]
  | cons hd tl ih =>
      obtain ⟨k', v'⟩ := hd
      simp only [List.map_cons, List.nodup_cons] at hnd
      by_cases hk : k' = k
      · subst hk
        simp only [JsMap.delete, if_pos rfl]
        exact JsMap.get_eq_none_of_not_mem tl k' hnd.1
      · simp only [JsMap.delete, if_neg hk, JsMap.get, if_neg hk]
        exact ih hnd.2

theorem JsMap.get_head {K V : Type} [DecidableEq K]
    (k : K) (v : V) (rest : JsMap K V) :
    JsMap.get ((k, v) :: rest) k = some v := by
  simp [JsMap.get]

/-! ### `lib/parse-cache.js` -/

/-- Cache key derived from a body (`ParseCache._generateKey`): the raw body
content for bodies shorter than 100, otherwise a SHA-256 digest, modelled
by the injective `digest` constructor. -/
inductive CacheKey where
  | raw (s : String)
  | digest (s : String)
deriving DecidableEq

/-- One stored parse result: the value and its absolute expiry timestamp. -/
structure CacheEntry (V : Type) where
  value : V
  expiresAt : Nat
deriving DecidableEq

/-- State of a `ParseCache` instance (`lib/parse-cache.js`). -/
structure ParseCache (V : Type) where
  cache : JsMap CacheKey (CacheEntry V)
  ttl : Nat
  maxSize : Nat
  hits : Nat
  misses : Nat
  evictions : Nat
deriving DecidableEq

/-- `DEFAULT_TTL` (60 seconds, in milliseconds). -/
def ParseCache.DEFAULT_TTL : Nat := 60000

/-- `MAX_CACHE_SIZE` of `lib/parse-cache.js`. -/
def ParseCache.MAX_CACHE_SIZE : Nat := 100

/-- `MAX_CACHEABLE_SIZE`: only bodies of at most 10KB are cached. -/
def ParseCache.MAX_CACHEABLE_SIZE : Nat := 10 * 1024

/-- The `ParseCache` constructor. -/
def ParseCache.new (V : Type) (ttl : Nat := ParseCache.DEFAULT_TTL)
    (maxSize : Nat := ParseCache.MAX_CACHE_SIZE) : ParseCache V :=
  { cache := [], ttl := ttl, maxSize := maxSize,
    hits := 0, misses := 0, evictions := 0 }

/-- `ParseCache._generateKey`. -/
def _generateKey (body : String) : CacheKey :=
  if body.length < 100 then CacheKey.raw body else CacheKey.digest body

/-- `ParseCache.get` (`Date.now()` passed explicitly as `now`): returns the
cached value (or `none`) together with the updated cache state. -/
def ParseCache.get {V : Type} (c : ParseCache V) (now : Nat) (body : String) :
    Option V × ParseCache V :=
  if body.length > ParseCache.MAX_CACHEABLE_SIZE then
    (none, c)
  else
    let key := _generateKey body
    match JsMap.get c.cache key with
    | none => (none, { c with misses := c.misses + 1 })
    | some entry =>
        if now > entry.expiresAt then
          (none, { c with cache := JsMap.delete c.cache key,
                          misses := c.misses + 1 })
        else
          (some entry.value, { c with hits := c.hits + 1 })

/-- `ParseCache.set` (`Date.now()` passed explicitly as `now`). When the
cache is full the first key in insertion order is deleted and the eviction
counter incremented; on an empty full cache (`maxSize = 0`) JS deletes the
key `undefined`, a no-op, but still increments the counter. -/
def ParseCache.set {V : Type} (c : ParseCache V) (now : Nat) (body : String)
    (value : V) : ParseCache V :=
  if body.length > ParseCache.MAX_CACHEABLE_SIZE then
    c
  else
    let c1 :=
      if c.cache.size ≥ c.maxSize then
        { c with
          cache := match JsMap.firstKey c.cache with
                   | some fk => JsMap.delete c.cache fk
                   | none => c.cache,
          evictions := c.evictions + 1 }
      else c
    let key := _generateKey body
    { c1 with cache := JsMap.set c1.cache key ⟨value, now + c1.ttl⟩ }

/-- The integer counters of `ParseCache.stats` (the floating-point
`hitRate` field is not modelled). -/
structure CacheStats where
  size : Nat
  hits : Nat
  misses : Nat
  evictions : Nat
deriving DecidableEq

/-- `ParseCache.stats`. -/
def ParseCache.stats {V : Type} (c : ParseCache V) : CacheStats :=
  { size := JsMap.size c.cache, hits := c.hits,
    misses := c.misses, evictions := c.evictions }

/-- `ParseCache.clear`. -/
def ParseCache.clear {V : Type} (c : ParseCache V) : ParseCache V :=
  { c with cache := [] }

/-- `ParseCache.cleanup` (`Date.now()` passed explicitly as `now`): removes
every expired entry, returning the number removed and the new state. -/
def ParseCache.cleanup {V : Type} (c : ParseCache V) (now : Nat) :
    Nat × ParseCache V :=
  let kept := c.cache.filter (fun e => !(now > e.2.expiresAt))
  let cleaned := JsMap.size c.cache - JsMap.size kept
  (cleaned, { c with cache := kept })

/-- One externally observable operation on a `ParseCache`. -/
inductive PCOp (V : Type) where
  | get (now : Nat) (body : String)
  | set (now : Nat) (body : String) (v : V)
  | cleanup (now : Nat)
  | clear

/-- The state reached after one operation on a `ParseCache`. -/
def ParseCache.step {V : Type} (c : ParseCache V) : PCOp V → ParseCache V
  | PCOp.get now body => (c.get now body).2
  | PCOp.set now body v => c.set now body v
  | PCOp.cleanup now => (c.cleanup now).2
  | PCOp.clear => c.clear

/-- Run a sequence of operations against a `ParseCache`. -/
def ParseCache.run {V : Type} (c : ParseCache V) : List (PCOp V) → ParseCache V
  | [] => c
  | op :: rest => (c.step op).run rest

/-! ### State lemmas for `ParseCache` operations -/

theorem ParseCache.get_state {V : Type} (c : ParseCache V) (now : Nat)
    (body : String) :
    (c.get now body).2.maxSize = c.maxSize ∧
    (c.get now body).2.ttl = c.ttl ∧
    JsMap.size (c.get now body).2.cache ≤ JsMap.size c.cache := by
  by_cases hgate : body.length > ParseCache.MAX_CACHEABLE_SIZE
  · simp [ParseCache.get, hgate]
  · cases hlook : JsMap.get c.cache (_generateKey body) with
    | none => simp [ParseCache.get, hgate, hlook]
    | some entry =>
        by_cases hexp : now > entry.expiresAt
        · refine ⟨?_, ?_, ?_⟩ <;>
            simp [ParseCache.get, hgate, hlook, hexp, JsMap.size_delete_le]
        · simp [ParseCache.get, hgate, hlook, hexp]

theorem ParseCache.set_state {V : Type} (c : ParseCache V) (now : Nat)
    (body : String) (v : V)
    (h1 : 1 ≤ c.maxSize) (h2 : JsMap.size c.cache ≤ c.maxSize) :
    (c.set now body v).maxSize = c.maxSize ∧
    (c.set now body v).ttl = c.ttl ∧
    JsMap.size (c.set now body v).cache ≤ c.maxSize := by
  by_cases hgate : body.length > ParseCache.MAX_CACHEABLE_SIZE
  · simp only [ParseCache.set, if_pos hgate]
    exact ⟨by trivial, by trivial, h2⟩
  · by_cases hfull : JsMap.size c.cache ≥ c.maxSize
    · cases hc : c.cache with
      | nil =>
          exfalso
          rw [hc] at hfull
          simp [JsMap.size] at hfull
          omega
      | cons hd tl =>
          obtain ⟨k0, e0⟩ := hd
          have hfk : JsMap.firstKey c.cache = some k0 := by
            rw [hc]; simp [JsMap.firstKey]
          have hdel : JsMap.delete c.cache k0 = tl := by
            rw [hc]; simp [JsMap.delete]
          have hsz : JsMap.size tl + 1 = JsMap.size c.cache := by
            rw [hc]; simp [JsMap.size]
          simp only [ParseCache.set, if_neg hgate, if_pos hfull, hfk, hdel]
          refine ⟨by trivial, by trivial, ?_⟩
          have hle := JsMap.size_set_le tl (_generateKey body)
            (⟨v, now + c.ttl⟩ : CacheEntry V)
          omega
    · simp only [ParseCache.set, if_neg hgate, if_neg hfull]
      refine ⟨by trivial, by trivial, ?_⟩
      have hle := JsMap.size_set_le c.cache (_generateKey body)
        (⟨v, now + c.ttl⟩ : CacheEntry V)
      have hlt : JsMap.size c.cache < c.maxSize := lt_of_not_ge hfull
      omega

theorem ParseCache.cleanup_state {V : Type} (c : ParseCache V) (now : Nat) :
    (c.cleanup now).2.maxSize = c.maxSize ∧
    (c.cleanup now).2.ttl = c.ttl ∧
    JsMap.size (c.cleanup now).2.cache ≤ JsMap.size c.cache := by
  refine ⟨rfl, rfl, ?_⟩
  simp only [ParseCache.cleanup, JsMap.size]
  exact List.length_filter_le _ _

theorem ParseCache.run_size_le {V : Type} (c : ParseCache V)
    (ops : List (PCOp V))
    (h1 : 1 ≤ c.maxSize) (h2 : JsMap.size c.cache ≤ c.maxSize) :
    (c.run ops).maxSize = c.maxSize ∧
    JsMap.size (c.run ops).cache ≤ c.maxSize := by
  induction ops generalizing c with
  | nil => exact ⟨rfl, h2⟩
  | cons op rest ih =>
      have hstep : (c.step op).maxSize = c.maxSize ∧
          JsMap.size (c.step op).cache ≤ c.maxSize := by
        cases op with
        | get now body =>
            have h := ParseCache.get_state c now body
            exact ⟨h.1, le_trans h.2.2 h2⟩
        | set now body v =>
            have h := ParseCache.set_state c now body v h1 h2
            exact ⟨h.1, h.2.2⟩
        | cleanup now =>
            have h := ParseCache.cleanup_state c now
            exact ⟨h.1, le_trans h.2.2 h2⟩
        | clear => exact ⟨rfl, by simp [ParseCache.step, ParseCache.clear, JsMap.size]⟩
      obtain ⟨hm, hs⟩ := hstep
      have hrec := ih (c.step op) (hm ▸ h1) (hm ▸ hs)
      simp only [ParseCache.run]
      exact ⟨hrec.1.trans hm, hm ▸ hrec.2⟩

theorem length_filter_pos_add_neg {α : Type} (p : α → Bool) (l : List α) :
    (l.filter p).length + (l.filter (fun a => !(p a))).length = l.length := by
  induction l with
  | nil => rfl
  | cons hd tl ih =>
      cases h : p hd
      · simp [List.filter_cons, h]
        omega
      · simp [List.filter_cons, h]
        omega

theorem ParseCache.get_hit {V : Type} (c : ParseCache V) (now : Nat)
    (body : String) (entry : CacheEntry V)
    (hgate : body.length ≤ ParseCache.MAX_CACHEABLE_SIZE)
    (hlook : JsMap.get c.cache (_generateKey body) = some entry)
    (hfresh : ¬ now > entry.expiresAt) :
    c.get now body = (some entry.value, { c with hits := c.hits + 1 }) := by
  have hgate' : ¬ body.length > ParseCache.MAX_CACHEABLE_SIZE := not_lt.mpr hgate
  simp only [ParseCache.get, if_neg hgate', hlook]
  rw [if_neg hfresh]

theorem ParseCache.get_after_set {V : Type} (c : ParseCache V) (now : Nat)
    (body : String) (v : V)
    (hgate : body.length ≤ ParseCache.MAX_CACHEABLE_SIZE) :
    JsMap.get (c.set now body v).cache (_generateKey body) =
      some ⟨v, now + c.ttl⟩ ∧
    (c.set now body v).ttl = c.ttl := by
  have hgate' : ¬ body.length > ParseCache.MAX_CACHEABLE_SIZE := not_lt.mpr hgate
  by_cases hfull : JsMap.size c.cache ≥ c.maxSize
  · simp only [ParseCache.set, if_neg hgate', if_pos hfull]
    exact ⟨JsMap.get_set_self _ _ _, by trivial⟩
  · simp only [ParseCache.set, if_neg hgate', if_neg hfull]
    exact ⟨JsMap.get_set_self _ _ _, by trivial⟩

/-! ### Fixtures used by witnesses and counterexamples -/

/-- A fresh parse cache with the default configuration
(`ttl = 60000`, `maxSize = 100`). -/
def pcEmpty : ParseCache Nat := ParseCache.new Nat

/-- A body one byte over the maximum cacheable size. -/
def bigBody : String := String.mk (List.replicate 10241 'a')

theorem bigBody_length : bigBody.length = 10241 := by
  have h : bigBody.length = (List.replicate 10241 'a').length := rfl
  rw [h, List.length_replicate]

theorem bigBody_over_limit :
    bigBody.length > ParseCache.MAX_CACHEABLE_SIZE := by
  rw [bigBody_length]
  norm_num [ParseCache.MAX_CACHEABLE_SIZE]

/-- A two-entry cache at its capacity (`maxSize = 2`), used to exercise
eviction. -/
def pcFull : ParseCache Nat :=
  { cache := [(CacheKey.raw "a", ⟨1, 9⟩), (CacheKey.raw "b", ⟨2, 9⟩)],
    ttl := 1000, maxSize := 2, hits := 0, misses := 0, evictions := 0 }

/-- A one-entry cache whose single entry expired at time 4. -/
def pcExpired : ParseCache Nat :=
  { cache := [(CacheKey.raw "x", ⟨7, 4⟩)],
    ttl := 1000, maxSize := 100, hits := 0, misses := 0, evictions := 0 }

/-! ### Claims about `lib/parse-cache.js` -/

/-- Claim C1, counterexample: for a body over the maximum cacheable size,
`ParseCache.get` reports not-found but does NOT increment the miss counter
— the state, and in particular the `misses` field reported by `stats()`,
is unchanged, contradicting the claim that the miss counter increases by
one. -/
theorem parseCache_sizeGate_counts_miss_C1_counterexample :
    bigBody.length > ParseCache.MAX_CACHEABLE_SIZE ∧
    (pcEmpty.get 0 bigBody).1 = none ∧
    (ParseCache.stats pcEmpty).misses = 0 ∧
    (ParseCache.stats (pcEmpty.get 0 bigBody).2).misses = 0 := by
  have h := bigBody_over_limit
  refine ⟨h, ?_, rfl, ?_⟩
  · simp [ParseCache.get, h]
  · simp [ParseCache.get, h, ParseCache.stats, pcEmpty, ParseCache.new]

/-- Claim C1 (amended): for every body whose length exceeds the maximum
cacheable size, `ParseCache.get` reports not-found without performing any
lookup and leaves the cache state — including the miss counter reported by
`stats()` — completely unchanged (the outcome is NOT counted as a miss). -/
theorem parseCache_sizeGate_no_miss_C1 {V : Type} (c : ParseCache V)
    (now : Nat) (body : String)
    (h : body.length > ParseCache.MAX_CACHEABLE_SIZE) :
    c.get now body = (none, c) := by
  simp [ParseCache.get, h]

theorem parseCache_sizeGate_no_miss_C1_witness :
    pcEmpty.get 0 bigBody = (none, pcEmpty) :=
  parseCache_sizeGate_no_miss_C1 pcEmpty 0 bigBody bigBody_over_limit

/-- Claim C2: (1) starting from a fresh cache with `maxSize ≥ 1`, the entry
count never exceeds `maxSize` under any sequence of operations; (2) a
cacheable `set` on a cache holding exactly `maxSize` entries removes
exactly the oldest-inserted entry (the head of the insertion order) and
increments the eviction counter by one; (3) a `get` never reorders or
grows the stored map on a hit (it only deletes on expiry), so the evicted
entry is independent of how recently it was read. -/
theorem parseCache_fifo_bound_C2 :
    (∀ (V : Type) (ttl maxSize : Nat) (ops : List (PCOp V)), 1 ≤ maxSize →
        JsMap.size ((ParseCache.new V ttl maxSize).run ops).cache ≤ maxSize) ∧
    (∀ (V : Type) (c : ParseCache V) (now : Nat) (body : String) (v : V)
        (k0 : CacheKey) (e0 : CacheEntry V)
        (tl : JsMap CacheKey (CacheEntry V)),
        c.cache = (k0, e0) :: tl →
        JsMap.size c.cache = c.maxSize →
        body.length ≤ ParseCache.MAX_CACHEABLE_SIZE →
        (c.set now body v).evictions = c.evictions + 1 ∧
        (c.set now body v).cache =
          JsMap.set tl (_generateKey body) ⟨v, now + c.ttl⟩) ∧
    (∀ (V : Type) (c : ParseCache V) (now : Nat) (body : String),
        (c.get now body).1.isSome = true →
        (c.get now body).2.cache = c.cache) := by
  refine ⟨?_, ?_, ?_⟩
  · intro V ttl maxSize ops h1
    have h := ParseCache.run_size_le (ParseCache.new V ttl maxSize) ops h1
      (by simp [ParseCache.new, JsMap.size])
    exact h.2
  · intro V c now body v k0 e0 tl hc hsize hbody
    have hgate' : ¬ body.length > ParseCache.MAX_CACHEABLE_SIZE :=
      not_lt.mpr hbody
    have hfull : JsMap.size c.cache ≥ c.maxSize := hsize.ge
    have hfk : JsMap.firstKey c.cache = some k0 := by
      rw [hc]; simp [JsMap.firstKey]
    have hdel : JsMap.delete c.cache k0 = tl := by
      rw [hc]; simp [JsMap.delete]
    simp only [ParseCache.set, if_neg hgate', if_pos hfull, hfk, hdel]
    exact ⟨by trivial, by trivial⟩
  · intro V c now body hsome
    by_cases hgate : body.length > ParseCache.MAX_CACHEABLE_SIZE
    · simp [ParseCache.get, hgate]
    · cases hlook : JsMap.get c.cache (_generateKey body) with
      | none => simp [ParseCache.get, hgate, hlook]
      | some entry =>
          by_cases hexp : now > entry.expiresAt
          · exfalso
            simp [ParseCache.get, hgate, hlook, hexp] at hsome
          · simp [ParseCache.get, hgate, hlook, hexp]

theorem parseCache_fifo_bound_C2_witness :
    JsMap.size ((ParseCache.new Nat 1000 2).run
      [PCOp.set 0 "a" 1, PCOp.set 0 "b" 2, PCOp.get 0 "a",
       PCOp.set 0 "c" 3]).cache ≤ 2 ∧
    ((pcFull.set 5 "c" 3).evictions = pcFull.evictions + 1 ∧
      (pcFull.set 5 "c" 3).cache =
        JsMap.set [(CacheKey.raw "b", ⟨2, 9⟩)] (_generateKey "c")
          ⟨3, 5 + pcFull.ttl⟩) ∧
    ((pcFull.get 5 "a").2.cache = pcFull.cache) :=
  ⟨parseCache_fifo_bound_C2.1 Nat 1000 2 _ (by decide),
   parseCache_fifo_bound_C2.2.1 Nat pcFull 5 "c" 3 _ _ _ rfl (by decide)
     (by decide),
   parseCache_fifo_bound_C2.2.2 Nat pcFull 5 "a" (by decide)⟩

/-- Claim C3: for a cacheable body, `set(body, v)` followed by `get(body)`
returns `v`, provided the TTL is positive and the clock has not advanced
past the entry's expiry. -/
theorem parseCache_roundtrip_C3 {V : Type} (c : ParseCache V)
    (now now2 : Nat) (body : String) (v : V)
    (hsize : body.length ≤ ParseCache.MAX_CACHEABLE_SIZE)
    (_httl : 0 < c.ttl)
    (hclock : now2 ≤ now + c.ttl) :
    ((c.set now body v).get now2 body).1 = some v := by
  obtain ⟨hlook, httl_eq⟩ := ParseCache.get_after_set c now body v hsize
  have hfresh : ¬ now2 > (⟨v, now + c.ttl⟩ : CacheEntry V).expiresAt :=
    not_lt.mpr hclock
  rw [ParseCache.get_hit (c.set now body v) now2 body ⟨v, now + c.ttl⟩
    hsize hlook hfresh]

theorem parseCache_roundtrip_C3_witness :
    ((pcEmpty.set 10 "hello" 42).get 11 "hello").1 = some 42 :=
  parseCache_roundtrip_C3 pcEmpty 10 11 "hello" 42 (by decide) (by decide)
    (by decide)

/-- Claim C4: (1) if the current time exceeds a stored entry's expiry,
`get` deletes the entry, counts a miss, and returns not-found; (2) a value
is only ever returned as a hit from an entry whose expiry has not passed
(an expired entry is never a hit); (3) `cleanup` keeps exactly the
unexpired entries and returns the number of expired entries removed. -/
theorem parseCache_expiry_C4 :
    (∀ (V : Type) (c : ParseCache V) (now : Nat) (body : String)
        (entry : CacheEntry V),
        body.length ≤ ParseCache.MAX_CACHEABLE_SIZE →
        JsMap.get c.cache (_generateKey body) = some entry →
        now > entry.expiresAt →
        c.get now body =
          (none, { c with cache := JsMap.delete c.cache (_generateKey body),
                          misses := c.misses + 1 })) ∧
    (∀ (V : Type) (c : ParseCache V) (now : Nat) (body : String) (val : V)
        (c' : ParseCache V),
        c.get now body = (some val, c') →
        ∃ entry : CacheEntry V,
          JsMap.get c.cache (_generateKey body) = some entry ∧
          ¬ now > entry.expiresAt ∧ val = entry.value) ∧
    (∀ (V : Type) (c : ParseCache V) (now : Nat),
        (∀ p ∈ (c.cleanup now).2.cache, ¬ now > p.2.expiresAt) ∧
        (∀ p ∈ c.cache, ¬ now > p.2.expiresAt → p ∈ (c.cleanup now).2.cache) ∧
        (c.cleanup now).1 + JsMap.size (c.cleanup now).2.cache =
          JsMap.size c.cache ∧
        (c.cleanup now).1 =
          (c.cache.filter (fun p => decide (now > p.2.expiresAt))).length) := by
  refine ⟨?_, ?_, ?_⟩
  · intro V c now body entry hgate hlook hexp
    have hgate' : ¬ body.length > ParseCache.MAX_CACHEABLE_SIZE :=
      not_lt.mpr hgate
    simp only [ParseCache.get, if_neg hgate', hlook]
    rw [if_pos hexp]
  · intro V c now body val c' h
    by_cases hgate : body.length > ParseCache.MAX_CACHEABLE_SIZE
    · exfalso
      simp [ParseCache.get, hgate] at h
    · cases hlook : JsMap.get c.cache (_generateKey body) with
      | none =>
          exfalso
          simp [ParseCache.get, hgate, hlook] at h
      | some entry =>
          by_cases hexp : now > entry.expiresAt
          · exfalso
            simp [ParseCache.get, hgate, hlook, hexp] at h
          · refine ⟨entry, rfl, hexp, ?_⟩
            simp [ParseCache.get, hgate, hlook, hexp] at h
            exact h.1.symm
  · intro V c now
    refine ⟨?_, ?_, ?_, ?_⟩
    · intro p hp
      simp only [ParseCache.cleanup, List.mem_filter] at hp
      simpa using hp.2
    · intro p hp hfresh
      simp only [ParseCache.cleanup, List.mem_filter]
      exact ⟨hp, by simpa using hfresh⟩
    · simp only [ParseCache.cleanup]
      have hle : (c.cache.filter
          (fun e => !(decide (now > e.2.expiresAt)))).length ≤
          c.cache.length := List.length_filter_le _ _
      simp only [JsMap.size]
      omega
    · simp only [ParseCache.cleanup, JsMap.size]
      have h := length_filter_pos_add_neg
        (fun p : CacheKey × CacheEntry V => decide (now > p.2.expiresAt))
        c.cache
      omega

theorem parseCache_expiry_C4_witness :
    (pcExpired.get 10 "x" =
      (none, { pcExpired with
                 cache := JsMap.delete pcExpired.cache (_generateKey "x"),
                 misses := pcExpired.misses + 1 })) ∧
    (∃ entry : CacheEntry Nat,
      JsMap.get pcFull.cache (_generateKey "a") = some entry ∧
      ¬ (5 : Nat) > entry.expiresAt ∧ 1 = entry.value) ∧
    ((∀ p ∈ (pcExpired.cleanup 10).2.cache, ¬ (10 : Nat) > p.2.expiresAt) ∧
      (∀ p ∈ pcExpired.cache,
        ¬ (10 : Nat) > p.2.expiresAt → p ∈ (pcExpired.cleanup 10).2.cache) ∧
      (pcExpired.cleanup 10).1 +
        JsMap.size (pcExpired.cleanup 10).2.cache =
        JsMap.size pcExpired.cache ∧
      (pcExpired.cleanup 10).1 =
        (pcExpired.cache.filter
          (fun p => decide ((10 : Nat) > p.2.expiresAt))).length) :=
  ⟨parseCache_expiry_C4.1 Nat pcExpired 10 "x" ⟨7, 4⟩ (by decide) (by decide)
      (by decide),
   parseCache_expiry_C4.2.1 Nat pcFull 5 "a" 1
     { pcFull with hits := 1 } (by decide),
   parseCache_expiry_C4.2.2 Nat pcExpired 10⟩

/-- Claim C9: when `set` runs on a cache holding `maxSize` entries, the
oldest-inserted entry is evicted and the eviction counter incremented
before the new key is derived; when the derived key is already present
(and is not itself the oldest entry), the overwrite therefore still counts
an eviction and shrinks the cache to `maxSize - 1`, strictly below
`maxSize`. -/
theorem parseCache_overwrite_eviction_C9 {V : Type} (c : ParseCache V)
    (now : Nat) (body : String) (v : V) (k0 : CacheKey) (e0 : CacheEntry V)
    (tl : JsMap CacheKey (CacheEntry V)) (entry : CacheEntry V)
    (hc : c.cache = (k0, e0) :: tl)
    (hsize : JsMap.size c.cache = c.maxSize)
    (hbody : body.length ≤ ParseCache.MAX_CACHEABLE_SIZE)
    (hpresent : JsMap.get c.cache (_generateKey body) = some entry)
    (hne : _generateKey body ≠ k0) :
    (c.set now body v).evictions = c.evictions + 1 ∧
    JsMap.size (c.set now body v).cache + 1 = c.maxSize ∧
    JsMap.size (c.set now body v).cache < c.maxSize := by
  have hgate' : ¬ body.length > ParseCache.MAX_CACHEABLE_SIZE :=
    not_lt.mpr hbody
  have hfull : JsMap.size c.cache ≥ c.maxSize := hsize.ge
  have hfk : JsMap.firstKey c.cache = some k0 := by
    rw [hc]; simp [JsMap.firstKey]
  have hdel : JsMap.delete c.cache k0 = tl := by
    rw [hc]; simp [JsMap.delete]
  have hintl : JsMap.get tl (_generateKey body) = some entry := by
    rw [hc] at hpresent
    simp only [JsMap.get] at hpresent
    rwa [if_neg (Ne.symm hne)] at hpresent
  have hsz : JsMap.size tl + 1 = c.maxSize := by
    rw [← hsize, hc]; simp [JsMap.size]
  have hset : JsMap.size (JsMap.set tl (_generateKey body)
      (⟨v, now + c.ttl⟩ : CacheEntry V)) = JsMap.size tl :=
    JsMap.size_set_present tl (_generateKey body) _ entry hintl
  simp only [ParseCache.set, if_neg hgate', if_pos hfull, hfk, hdel]
  refine ⟨by trivial, ?_, ?_⟩ <;> simp only [hset] <;> omega

theorem parseCache_overwrite_eviction_C9_witness :
    (pcFull.set 5 "b" 9).evictions = pcFull.evictions + 1 ∧
    JsMap.size (pcFull.set 5 "b" 9).cache + 1 = pcFull.maxSize ∧
    JsMap.size (pcFull.set 5 "b" 9).cache < pcFull.maxSize :=
  parseCache_overwrite_eviction_C9 pcFull 5 "b" 9 (CacheKey.raw "a") ⟨1, 9⟩
    [(CacheKey.raw "b", ⟨2, 9⟩)] ⟨2, 9⟩ rfl (by decide) (by decide)
    (by decide) (by decide)

/-! ### `lib/buffer-pool.js` -/

/-- `POOL_SIZE` (8KB, the size-class threshold). -/
def BufferPool.POOL_SIZE : Nat := 8 * 1024

/-- `MAX_POOL_ENTRIES`: maximum number of pooled idle buffers. -/
def BufferPool.MAX_POOL_ENTRIES : Nat := 50

/-- State of a `BufferPool` (`lib/buffer-pool.js`); buffers are byte
lists. -/
structure BufferPool where
  pool : List (List Nat)
  hits : Nat
  misses : Nat

/-- The `BufferPool` constructor. -/
def BufferPool.new : BufferPool := { pool := [], hits := 0, misses := 0 }

/-- `Buffer.allocUnsafe`: a buffer of the requested length whose contents
are uninitialised memory, supplied by the arbitrary oracle `junk`. -/
def Buffer.allocUnsafe (junk : Nat → Nat) (size : Nat) : List Nat :=
  (List.range size).map junk

/-- The first-fit scan of `acquire`: the first pooled buffer of length ≥
`size`, together with the pool with that buffer spliced out
(`this.pool.splice(i, 1)`). -/
def findFirstFit (pool : List (List Nat)) (size : Nat) :
    Option (List Nat × List (List Nat)) :=
  match pool with
  | [] => none
  | buf :: rest =>
      if buf.length ≥ size then some (buf, rest)
      else match findFirstFit rest size with
           | some (b, rest') => some (b, buf :: rest')
           | none => none

/-- `BufferPool.acquire`: large sizes bypass the pool, otherwise first-fit
from the idle set (trimming with `buf.slice(0, size)` when the length
differs), otherwise a fresh allocation of `max(size, POOL_SIZE)`. -/
def BufferPool.acquire (p : BufferPool) (junk : Nat → Nat) (size : Nat) :
    List Nat × BufferPool :=
  if size > BufferPool.POOL_SIZE * 2 then
    (Buffer.allocUnsafe junk size, { p with misses := p.misses + 1 })
  else
    match findFirstFit p.pool size with
    | some (buf, rest) =>
        (if buf.length = size then buf else buf.take size,
         { p with pool := rest, hits := p.hits + 1 })
    | none =>
        (Buffer.allocUnsafe junk (max size BufferPool.POOL_SIZE),
         { p with misses := p.misses + 1 })

/-- `BufferPool.release`: when the buffer is of poolable size and the pool
is not full, zero-fill it (`buffer.fill(0)`) and append it to the idle
set; otherwise drop it. -/
def BufferPool.release (p : BufferPool) (buffer : List Nat) : BufferPool :=
  if buffer.length ≤ BufferPool.POOL_SIZE * 2 ∧
      p.pool.length < BufferPool.MAX_POOL_ENTRIES then
    { p with pool := p.pool ++ [List.replicate buffer.length 0] }
  else p

/-- `BufferPool.clear`. -/
def BufferPool.clear (p : BufferPool) : BufferPool := { p with pool := [] }

/-- One operation on a `BufferPool`. -/
inductive BPOp where
  | acquire (junk : Nat → Nat) (size : Nat)
  | release (buffer : List Nat)
  | clear

/-- The state reached after one operation on a `BufferPool`. -/
def BufferPool.step (p : BufferPool) : BPOp → BufferPool
  | BPOp.acquire junk size => (p.acquire junk size).2
  | BPOp.release buffer => p.release buffer
  | BPOp.clear => p.clear

/-- Run a sequence of operations against a `BufferPool`. -/
def BufferPool.run (p : BufferPool) : List BPOp → BufferPool
  | [] => p
  | op :: rest => (p.step op).run rest

/-- Every idle buffer in the pool is entirely zero. -/
def BufferPool.allZero (p : BufferPool) : Prop :=
  ∀ buf ∈ p.pool, ∀ b ∈ buf, b = 0

theorem findFirstFit_mem (size : Nat) :
    ∀ (pool : List (List Nat)) (buf : List Nat) (rest : List (List Nat)),
    findFirstFit pool size = some (buf, rest) →
    (buf ∈ pool ∧ size ≤ buf.length ∧ ∀ x ∈ rest, x ∈ pool) := by
  intro pool
  induction pool with
  | nil => intro buf rest h; simp [findFirstFit] at h
  | cons hd tl ih =>
      intro buf rest h
      simp only [findFirstFit] at h
      by_cases hlen : hd.length ≥ size
      · rw [if_pos hlen] at h
        cases h
        exact ⟨List.mem_cons_self _ _, hlen,
          fun x hx => List.mem_cons_of_mem _ hx⟩
      · rw [if_neg hlen] at h
        cases hrec : findFirstFit tl size with
        | none => rw [hrec] at h; cases h
        | some pr =>
            obtain ⟨b, rest'⟩ := pr
            rw [hrec] at h
            simp only [Option.some.injEq, Prod.mk.injEq] at h
            obtain ⟨hb, hr⟩ := h
            have hmem := ih b rest' hrec
            refine ⟨?_, ?_, ?_⟩
            · rw [← hb]; exact List.mem_cons_of_mem _ hmem.1
            · rw [← hb]; exact hmem.2.1
            · intro x hx
              rw [← hr] at hx
              rcases List.mem_cons.mp hx with rfl | hx'
              · exact List.mem_cons_self _ _
              · exact List.mem_cons_of_mem _ (hmem.2.2 x hx')

theorem BufferPool.step_allZero (p : BufferPool) (op : BPOp)
    (h : p.allZero) : (p.step op).allZero := by
  cases op with
  | acquire junk size =>
      simp only [BufferPool.step, BufferPool.acquire]
      by_cases hbig : size > BufferPool.POOL_SIZE * 2
      · rw [if_pos hbig]; exact h
      · rw [if_neg hbig]
        cases hff : findFirstFit p.pool size with
        | none => exact h
        | some pr =>
            obtain ⟨buf, rest⟩ := pr
            intro x hx
            exact h x ((findFirstFit_mem size p.pool buf rest hff).2.2 x hx)
  | release buffer =>
      simp only [BufferPool.step, BufferPool.release]
      split
      · intro x hx
        rcases List.mem_append.mp hx with hx' | hx'
        · exact h x hx'
        · intro b hb
          rcases List.mem_singleton.mp hx' with rfl
          exact List.eq_of_mem_replicate hb
      · exact h
  | clear =>
      intro x hx
      simp [BufferPool.step, BufferPool.clear] at hx

theorem BufferPool.run_allZero (p : BufferPool) (ops : List BPOp)
    (h : p.allZero) : (p.run ops).allZero := by
  induction ops generalizing p with
  | nil => exact h
  | cons op rest ih => exact ih (p.step op) (BufferPool.step_allZero p op h)

/-! ### Claims about `lib/buffer-pool.js` -/

/-- Claim C5: starting from an empty pool, after any sequence of acquires,
releases (of buffers with arbitrary dirty contents) and clears, an
`acquire` that is satisfied from the pool's idle set (observable as the
hit counter incrementing) returns a buffer that is entirely zero — it
equals `List.replicate size 0` — so no byte written during a prior use of
a pooled buffer is observable by the later caller. -/
theorem bufferPool_zeroed_reuse_C5 (ops : List BPOp) (junk : Nat → Nat)
    (size : Nat)
    (hhit : ((BufferPool.new.run ops).acquire junk size).2.hits =
      (BufferPool.new.run ops).hits + 1) :
    ((BufferPool.new.run ops).acquire junk size).1 =
      List.replicate size 0 := by
  set p := BufferPool.new.run ops with hp
  have hzero : p.allZero := by
    rw [hp]
    exact BufferPool.run_allZero BufferPool.new ops
      (by intro x hx; simp [BufferPool.new] at hx)
  by_cases hbig : size > BufferPool.POOL_SIZE * 2
  · exfalso
    simp only [BufferPool.acquire, if_pos hbig] at hhit
    omega
  · cases hff : findFirstFit p.pool size with
    | none =>
        exfalso
        simp only [BufferPool.acquire, if_neg hbig, hff] at hhit
        omega
    | some pr =>
        obtain ⟨buf, rest⟩ := pr
        obtain ⟨hmem, hlen, -⟩ := findFirstFit_mem size p.pool buf rest hff
        have hbufzero : ∀ b ∈ buf, b = 0 := hzero buf hmem
        simp only [BufferPool.acquire, if_neg hbig, hff]
        by_cases heq : buf.length = size
        · rw [if_pos heq]
          exact List.eq_replicate_iff.mpr ⟨heq, hbufzero⟩
        · rw [if_neg heq]
          refine List.eq_replicate_iff.mpr ⟨?_, ?_⟩
          · rw [List.length_take]
            omega
          · intro b hb
            exact hbufzero b (List.take_subset size buf hb)

theorem bufferPool_zeroed_reuse_C5_witness :
    ((BufferPool.new.run [BPOp.release [5, 6, 7]]).acquire
      (fun _ => 9) 2).1 = List.replicate 2 0 :=
  bufferPool_zeroed_reuse_C5 [BPOp.release [5, 6, 7]] (fun _ => 9) 2 rfl

/-- Claim C6: for every pool state and every requested size, `acquire`
succeeds (it is a total function) and returns a buffer whose length is at
least the requested size, in all three branches: the large-size bypass,
the first-fit pool hit with trimming, and the fresh-allocation
fallback. -/
theorem bufferPool_acquire_length_C6 (p : BufferPool) (junk : Nat → Nat)
    (size : Nat) :
    size ≤ ((p.acquire junk size).1).length := by
  by_cases hbig : size > BufferPool.POOL_SIZE * 2
  · simp only [BufferPool.acquire, if_pos hbig, Buffer.allocUnsafe]
    simp
  · cases hff : findFirstFit p.pool size with
    | none =>
        simp only [BufferPool.acquire, if_neg hbig, hff, Buffer.allocUnsafe]
        simp
    | some pr =>
        obtain ⟨buf, rest⟩ := pr
        obtain ⟨-, hlen, -⟩ := findFirstFit_mem size p.pool buf rest hff
        simp only [BufferPool.acquire, if_neg hbig, hff]
        by_cases heq : buf.length = size
        · rw [if_pos heq]; omega
        · rw [if_neg heq, List.length_take]; omega

/-! ### `lib/content-type-cache.js` -/

/-- A parsed content-type result: `{type, parameters}`. -/
structure ContentType where
  type : String
  parameters : List (String × String)
deriving DecidableEq

/-- `MAX_CACHE_SIZE` of `lib/content-type-cache.js`. -/
def ContentTypeCache.MAX_CACHE_SIZE : Nat := 50

/-- `COMMON_TYPES`: the seeded baseline entries, in object-key order. -/
def COMMON_TYPES : JsMap String ContentType :=
  [("application/json", ⟨"application/json", []⟩),
   ("application/json; charset=utf-8",
     ⟨"application/json", [("charset", "utf-8")]⟩),
   ("application/x-www-form-urlencoded",
     ⟨"application/x-www-form-urlencoded", []⟩),
   ("application/x-www-form-urlencoded; charset=utf-8",
     ⟨"application/x-www-form-urlencoded", [("charset", "utf-8")]⟩),
   ("text/plain", ⟨"text/plain", []⟩),
   ("text/plain; charset=utf-8", ⟨"text/plain", [("charset", "utf-8")]⟩)]

/-- State of the `ContentTypeCache`. Stored values are kept generic in `V`
(the code stores whatever the supplied parser returns); the fallible
parser is modelled with `Except`. In JS the hit test is `if (cached)` —
truthiness of the stored value — and stored values are always objects
(hence truthy), so presence in the map is the faithful translation. -/
structure ContentTypeCache (V : Type) where
  cache : JsMap String V
  hits : Nat
  misses : Nat
deriving DecidableEq

/-- The `ContentTypeCache` constructor: seeded with `COMMON_TYPES`. -/
def ContentTypeCache.new : ContentTypeCache ContentType :=
  { cache := COMMON_TYPES, hits := 0, misses := 0 }

/-- `ContentTypeCache.parse`: on a hit return the cached value; on a miss
count the miss, invoke the supplied parser (whose failure propagates
unmodified, with nothing stored), and on success store the result only if
the cache size is below `MAX_CACHE_SIZE`. -/
def ContentTypeCache.parse {V E : Type} (c : ContentTypeCache V)
    (header : String) (parser : String → Except E V) :
    Except E V × ContentTypeCache V :=
  match JsMap.get c.cache header with
  | some cached => (Except.ok cached, { c with hits := c.hits + 1 })
  | none =>
      let c1 := { c with misses := c.misses + 1 }
      match parser header with
      | Except.error e => (Except.error e, c1)
      | Except.ok parsed =>
          (Except.ok parsed,
           if JsMap.size c1.cache < ContentTypeCache.MAX_CACHE_SIZE then
             { c1 with cache := JsMap.set c1.cache header parsed }
           else c1)

/-- `ContentTypeCache.clear`: reset to exactly the seeded baseline. -/
def ContentTypeCache.clear (c : ContentTypeCache ContentType) :
    ContentTypeCache ContentType :=
  { c with cache := COMMON_TYPES }

/-- A parser that always succeeds, used by concrete evaluations. -/
def okParser : String → Except String ContentType :=
  fun h => Except.ok ⟨h, []⟩

/-- A parser that always fails, used by concrete evaluations. -/
def errParser : String → Except String ContentType :=
  fun _ => Except.error "invalid media type"

/-- 44 distinct dynamic headers, enough to fill the cache to its maximum
size of 50 on top of the 6 seeded entries. -/
def fillHeaders : List String :=
  (List.range 44).map (fun i => "d" ++ toString i)

/-- The fresh cache after dynamically inserting the 44 fill headers. -/
def ctFilled : ContentTypeCache ContentType :=
  fillHeaders.foldl (fun c h => (c.parse h okParser).2) ContentTypeCache.new

/-! ### Claims about `lib/content-type-cache.js` -/

/-- Claim C7, counterexample: the seeded baseline DOES count toward the
storage capacity for dynamic entries. Starting from the fresh cache (6
seeded entries), inserting only 44 dynamic headers — fewer than the
configured maximum of 50 — fills the cache to 50, after which a further
successful parse returns its result but does NOT store it, contradicting
the claim that up to the configured maximum number of dynamic entries can
be stored in addition to the baseline. -/
theorem contentTypeCache_capacity_C7_counterexample :
    JsMap.size ContentTypeCache.new.cache = 6 ∧
    JsMap.size ctFilled.cache = 50 ∧
    (ctFilled.parse "dnew" okParser).1 = Except.ok ⟨"dnew", []⟩ ∧
    JsMap.get (ctFilled.parse "dnew" okParser).2.cache "dnew" = none ∧
    (44 : Nat) < ContentTypeCache.MAX_CACHE_SIZE := by
  refine ⟨rfl, by decide, rfl, by decide, by decide⟩

/-- Claim C7 (amended): `clear()` resets the cache to exactly the seeded
baseline, and the baseline is permanent (nothing ever removes entries);
but baseline entries DO count toward the storage capacity: on a miss with
a successful parse, the result is stored exactly when the total entry
count — seeded baseline included — is below the configured maximum, so at
most `MAX_CACHE_SIZE - 6 = 44` dynamic entries can ever be stored. -/
theorem contentTypeCache_capacity_C7 :
    (∀ c : ContentTypeCache ContentType,
        (ContentTypeCache.clear c).cache = COMMON_TYPES) ∧
    JsMap.size COMMON_TYPES = 6 ∧
    (∀ (V E : Type) (c : ContentTypeCache V) (header : String)
        (parser : String → Except E V) (v : V),
        JsMap.get c.cache header = none →
        parser header = Except.ok v →
        (c.parse header parser).2.cache =
          (if JsMap.size c.cache < ContentTypeCache.MAX_CACHE_SIZE then
             JsMap.set c.cache header v
           else c.cache)) := by
  refine ⟨fun c => rfl, rfl, ?_⟩
  intro V E c header parser v hmiss hok
  simp only [ContentTypeCache.parse, hmiss, hok]
  by_cases hlt : JsMap.size c.cache < ContentTypeCache.MAX_CACHE_SIZE
  · simp [hlt]
  · simp [hlt]

theorem contentTypeCache_capacity_C7_witness :
    ((ContentTypeCache.clear ctFilled).cache = COMMON_TYPES) ∧
    JsMap.size COMMON_TYPES = 6 ∧
    ((ContentTypeCache.new.parse "text/csv" okParser).2.cache =
      (if JsMap.size ContentTypeCache.new.cache <
          ContentTypeCache.MAX_CACHE_SIZE then
         JsMap.set ContentTypeCache.new.cache "text/csv" ⟨"text/csv", []⟩
       else ContentTypeCache.new.cache)) :=
  ⟨contentTypeCache_capacity_C7.1 ctFilled,
   contentTypeCache_capacity_C7.2.1,
   contentTypeCache_capacity_C7.2.2 ContentType String ContentTypeCache.new
     "text/csv" okParser ⟨"text/csv", []⟩ (by decide) rfl⟩

/-- Claim C8: for an uncached header and a parser that fails on it,
`parse` propagates the failure unmodified and leaves the cache's mapping
unchanged — the failing result is never stored, so a later lookup of the
same header still misses in the mapping. -/
theorem contentTypeCache_error_propagation_C8 {V E : Type}
    (c : ContentTypeCache V) (header : String)
    (parser : String → Except E V) (err : E)
    (hmiss : JsMap.get c.cache header = none)
    (herr : parser header = Except.error err) :
    (c.parse header parser).1 = Except.error err ∧
    (c.parse header parser).2.cache = c.cache ∧
    JsMap.get (c.parse header parser).2.cache header = none := by
  have h2 : c.parse header parser =
      (Except.error err, { c with misses := c.misses + 1 }) := by
    simp only [ContentTypeCache.parse, hmiss, herr]
  rw [h2]
  exact ⟨rfl, rfl, hmiss⟩

theorem contentTypeCache_error_propagation_C8_witness :
    (ContentTypeCache.new.parse "bogus" errParser).1 =
      Except.error "invalid media type" ∧
    (ContentTypeCache.new.parse "bogus" errParser).2.cache =
      ContentTypeCache.new.cache ∧
    JsMap.get (ContentTypeCache.new.parse "bogus" errParser).2.cache
      "bogus" = none :=
  contentTypeCache_error_propagation_C8 ContentTypeCache.new "bogus"
    errParser "invalid media type" (by decide) rfl

/-- Claim C10: on a miss the miss counter is incremented before the
supplied parser runs, so for every uncached header — and in particular for
every parser that raises a failure — the miss counter increases by exactly
one even though nothing is returned or stored. -/
theorem contentTypeCache_miss_counter_C10 {V E : Type}
    (c : ContentTypeCache V) (header : String)
    (parser : String → Except E V)
    (hmiss : JsMap.get c.cache header = none) :
    (c.parse header parser).2.misses = c.misses + 1 := by
  simp only [ContentTypeCache.parse, hmiss]
  cases hp : parser header with
  | error e => simp only [hp]
  | ok v =>
      simp only [hp]
      split <;> rfl

theorem contentTypeCache_miss_counter_C10_witness :
    (ContentTypeCache.new.parse "bogus" errParser).2.misses =
      ContentTypeCache.new.misses + 1 :=
  contentTypeCache_miss_counter_C10 ContentTypeCache.new "bogus" errParser
    (by decide)
